import Mathlib

/-!
Verification of the `horse` repository's sandboxing core: the bash command
validator (`src/tools/bash.rs`), the confined file reader
(`src/tools/read_file.rs`) and the document search tool
(`src/agent/tools/search_docs.rs`), shallowly embedded in Lean.

Strings are modelled as `List Char`; stateful OS interaction (filesystem
canonicalization, process spawning) is modelled by explicit oracles passed
as arguments, so the pure decision logic of the tools is embedded exactly.
-/

deriving instance DecidableEq for Except

namespace Horse

/-- Strings of the embedded program, modelled as lists of characters. -/
abbrev Str := List Char

/-- Coerce a literal Lean string into the embedded string type. -/
def str (s : String) : Str := s.data

/-- ASCII approximation of Rust `char::is_whitespace` (space, tab, newline,
carriage return); the tools only ever deal with these in practice. -/
def wsChar (c : Char) : Bool :=
  c = ' ' || c = '\t' || c = '\n' || c = '\r'

/-- Rust `str::trim`: strip leading and trailing whitespace. -/
def trim (s : Str) : Str :=
  List.rdropWhile wsChar (s.dropWhile wsChar)

/-- Rust `str::contains(pattern)`: `pat` occurs as a contiguous substring
of `s`. -/
def containsSub (s pat : Str) : Bool :=
  (List.range (s.length + 1)).any (fun i => pat.isPrefixOf (s.drop i))

/-- Worker for `splitWhitespace`: `acc` holds the reversed characters of
the word currently being read. -/
def splitWsAux : Str → Str → List Str
  | [], acc => if acc = [] then [] else [acc.reverse]
  | c :: cs, acc =>
    if wsChar c then
      if acc = [] then splitWsAux cs []
      else acc.reverse :: splitWsAux cs []
    else splitWsAux cs (c :: acc)

/-- Rust `str::split_whitespace`: maximal runs of non-whitespace
characters, in order; whitespace-only input yields no tokens. -/
def splitWhitespace (s : Str) : List Str :=
  splitWsAux s []

/-- Rust `cmd.split_whitespace().next()`: the first whitespace-delimited
token, if any. -/
def firstWord (s : Str) : Option Str :=
  (splitWhitespace s).head?

/-! ### Bash command validator (`src/tools/bash.rs`) -/

/-- `const TIMEOUT_SECS: u64 = 30`. -/
def TIMEOUT_SECS : Nat := 30

/-- `const ALLOWED_COMMANDS: &[&str]`. -/
def ALLOWED_COMMANDS : List Str :=
  [str "grep", str "find", str "cat", str "head", str "tail", str "ls",
   str "tree", str "wc", str "file", str "rg"]

/-- `const FORBIDDEN_PATTERNS: &[&str]`. -/
def FORBIDDEN_PATTERNS : List Str :=
  [str ";", str "&&", str "||", str "`", str "$(", str ">", str "<",
   str ">>", str "<<"]

/-- `ALLOWED_COMMANDS.join(", ")`, as used in `CommandNotAllowed`. -/
def allowListJoined : Str :=
  List.intercalate (str ", ") ALLOWED_COMMANDS

/-- The `BashCommandError` enum (the `Io` payload is irrelevant to the
validator and kept abstract as a message string). -/
inductive BashCommandError where
  | CommandNotAllowed (token : Str) (allowed : Str)
  | ForbiddenPattern (pat : Str)
  | Timeout (secs : Nat)
  | Io (msg : Str)
  | CommandFailed (code : Int) (output : Str)
  | EmptyCommand
deriving DecidableEq

/-- The body of the `for (i, c) in s.char_indices()` loop of
`split_respecting_quotes`, together with its final push of the remaining
slice.  `s` is the full input, `rest` the characters not yet visited
(invariant: `rest = s.drop i`), `start` the start index of the current
segment, `res` the segments already pushed. -/
def splitLoop (s : Str) (d : Char) :
    Str → Nat → Nat → List Str → Bool → Bool → Char → List Str
  | [], _, start, res, _, _, _ =>
    if start < s.length then res ++ [s.drop start]
    else if start = s.length then res ++ [[]]
    else res
  | c :: rest, i, start, res, inS, inD, prev =>
    let st :=
      if c = '\'' ∧ prev ≠ '\\' ∧ inD = false then (!inS, inD)
      else if c = '"' ∧ prev ≠ '\\' ∧ inS = false then (inS, !inD)
      else (inS, inD)
    if c = d ∧ st.1 = false ∧ st.2 = false then
      splitLoop s d rest (i + 1) (i + 1)
        (res ++ [(s.take i).drop start]) st.1 st.2 c
    else
      splitLoop s d rest (i + 1) start res st.1 st.2 c

/-- `BashCommand::split_respecting_quotes`: split `s` on `d`, treating
delimiters inside single- or double-quoted spans as literal. -/
def split_respecting_quotes (s : Str) (d : Char) : List Str :=
  splitLoop s d s 0 0 [] false false (Char.ofNat 0)

/-- The per-stage allow-list loop of `BashCommand::validate_command`. -/
def checkStages : List Str → Except BashCommandError Unit
  | [] => .ok ()
  | c :: rest =>
    let cmd := trim c
    if cmd = [] then checkStages rest
    else
      match firstWord cmd with
      | none => .error .EmptyCommand
      | some w =>
        if ALLOWED_COMMANDS.contains w then checkStages rest
        else .error (.CommandNotAllowed w allowListJoined)

/-- `BashCommand::validate_command`. -/
def validate_command (command : Str) : Except BashCommandError Unit :=
  let trimmed := trim command
  if trimmed = [] then .error .EmptyCommand
  else
    match FORBIDDEN_PATTERNS.find? (fun p => containsSub trimmed p) with
    | some p => .error (.ForbiddenPattern p)
    | none => checkStages (split_respecting_quotes trimmed '|')

/-- How `BashCommand::call` executes an accepted command: either the full
string handed to `sh -c`, or a direct `Command::new(cmd).args(args)`. -/
inductive ExecSpec where
  | shell (full : Str)
  | direct (cmd : Str) (args : List Str)
deriving DecidableEq

/-- The dispatch logic of `BashCommand::call` up to the `spawn` calls:
validate, then choose shell execution when the raw command contains a
pipe character, otherwise split on whitespace and execute directly. -/
def bashExecSpec (command : Str) : Except BashCommandError ExecSpec :=
  match validate_command command with
  | .error e => .error e
  | .ok _ =>
    if command.contains '|' then .ok (.shell command)
    else
      match splitWhitespace command with
      | [] => .error .EmptyCommand
      | c :: rest => .ok (.direct c rest)

/-! ### Specification-level splitter (from the words of the spec)

The spec describes the quote-aware split as a character scan: a `'`
toggles single-quote mode unless the previous character was a backslash
or double-quote mode is active; a `"` toggles double-quote mode unless
the previous character was a backslash or single-quote mode is active;
the string is split exactly at delimiter positions where neither mode is
active, and the segment accumulated after the last split (possibly
empty, in particular after a trailing delimiter) is always emitted. -/

/-- One quote-state transition of the spec's scanner. -/
def quoteToggle (c prev : Char) (inS inD : Bool) : Bool × Bool :=
  if c = '\'' ∧ prev ≠ '\\' ∧ inD = false then (!inS, inD)
  else if c = '"' ∧ prev ≠ '\\' ∧ inS = false then (inS, !inD)
  else (inS, inD)

/-- State of the spec's scanner: stages emitted so far, current segment,
quote modes, previous character. -/
structure SplitState where
  stages : List Str
  cur : Str
  inS : Bool
  inD : Bool
  prev : Char
deriving DecidableEq

/-- Initial scanner state. -/
def initSplitState : SplitState :=
  ⟨[], [], false, false, Char.ofNat 0⟩

/-- One character step of the spec's scanner for delimiter `d`. -/
def splitStep (d : Char) (st : SplitState) (c : Char) : SplitState :=
  let q := quoteToggle c st.prev st.inS st.inD
  if c = d ∧ q.1 = false ∧ q.2 = false then
    ⟨st.stages ++ [st.cur], [], q.1, q.2, c⟩
  else
    ⟨st.stages, st.cur ++ [c], q.1, q.2, c⟩

/-- The split as the spec words it: run the scanner over the string and
emit the trailing segment (empty after a trailing delimiter). -/
def splitSpec (s : Str) (d : Char) : List Str :=
  let fin := s.foldl (splitStep d) initSplitState
  fin.stages ++ [fin.cur]

/-! ### Confined file reader (`src/tools/read_file.rs`) -/

/-- `const MAX_BYTES: usize = 50 * 1024`. -/
def MAX_BYTES : Nat := 50 * 1024

/-- `const MAX_LINES: usize = 1000`. -/
def MAX_LINES : Nat := 1000

/-- The truncation notice appended by `ReadFile::call`. -/
def TRUNC_MARKER : Str :=
  str "\n\n[truncated - file exceeds 50KB or 1000 lines limit]"

/-- Classification of I/O failures; `notFound` models
`std::io::ErrorKind::NotFound`. -/
inductive IoErrorKind where
  | notFound
  | permissionDenied
  | otherKind
deriving DecidableEq

/-- An abstract `std::io::Error`: a kind plus a message. -/
structure IoError where
  kind : IoErrorKind
  msg : Str
deriving DecidableEq

/-- A canonical filesystem path, as a list of components (the shape on
which Rust `Path::starts_with` compares component-wise). -/
abbrev CanonPath := List Str

/-- The `ReadFileError` enum. -/
inductive ReadFileError where
  | PathTraversal (p : Str)
  | Io (e : IoError)
  | OutsideBaseDir
deriving DecidableEq

/-- Rust `PathBuf::join`: an absolute right operand replaces the base,
otherwise the operand is appended after a separator. -/
def joinPath (base p : Str) : Str :=
  if p.head? = some '/' then p else base ++ '/' :: p

/-- `ReadFile::resolve_path`, with the filesystem abstracted as a
canonicalization oracle `canon` (Rust `Path::canonicalize`). -/
def resolve_path (canon : Str → Except IoError CanonPath)
    (base_dir path : Str) : Except ReadFileError CanonPath :=
  if containsSub path (str "..") then .error (.PathTraversal path)
  else
    let resolved := joinPath base_dir path
    match canon resolved with
    | .error e => .error (.Io e)
    | .ok canonical =>
      match canon base_dir with
      | .error e => .error (.Io e)
      | .ok base_canonical =>
        if base_canonical.isPrefixOf canonical then .ok canonical
        else .error .OutsideBaseDir

/-- Rust `str::lines`: split on `'\n'`, drop one trailing empty segment,
strip a trailing `'\r'` from each line. -/
def rustLines (content : Str) : List Str :=
  let segs := content.splitOn '\n'
  let segs := if segs.getLast? = some [] then segs.dropLast else segs
  segs.map (fun l => if l.getLast? = some '\r' then l.dropLast else l)

/-- The line-window selection of `ReadFile::call`:
`skip(start).take(end.saturating_sub(start))` with
`start = start_line.map(|s| s.saturating_sub(1)).unwrap_or(0)` and
`end = end_line.unwrap_or(total).min(total)`. -/
def readFileSelect (content : Str) (start_line end_line : Option Nat) :
    List Str :=
  let lines := rustLines content
  let total := lines.length
  let start := (start_line.map (fun s => s - 1)).getD 0
  let e := min (end_line.getD total) total
  (lines.drop start).take (e - start)

/-- The truncation loop of `ReadFile::call`: arguments are the remaining
selected lines, the enumeration index `line_count`, the running
`byte_count` and the accumulated `result`; returns the result and the
`truncated` flag. -/
def buildLoop : List Str → Nat → Nat → Str → Str × Bool
  | [], _, _, result => (result, false)
  | line :: rest, line_count, byte_count, result =>
    if line_count ≥ MAX_LINES ∨ byte_count + line.length + 1 > MAX_BYTES then
      (result, true)
    else
      let resultB := if result = [] then result else result ++ ['\n']
      let byte_countB := if result = [] then byte_count else byte_count + 1
      buildLoop rest (line_count + 1) (byte_countB + line.length)
        (resultB ++ line)

/-- The tail of `ReadFile::call` after the selection: run the truncation
loop and append the truncation notice when the loop broke early. -/
def readFileRender (selected : List Str) : Str :=
  let r := buildLoop selected 0 0 []
  if r.2 then r.1 ++ TRUNC_MARKER else r.1

/-- `ReadFile::call` after a successful read of `content`: selection
followed by rendering. -/
def readFileCallBody (content : Str) (start_line end_line : Option Nat) :
    Str :=
  readFileRender (readFileSelect content start_line end_line)

/-- The join the truncation loop performs when nothing is truncated
(newline-separated, except that no separator is emitted while the
accumulated result is still empty). -/
def codeJoin (ls : List Str) : Str :=
  ls.foldl (fun r l => if r = [] then l else r ++ '\n' :: l) []

/-! ### Document search (`src/agent/tools/search_docs.rs`) -/

/-- `const TIMEOUT_SECS: u64 = 30` of the search tool. -/
def SEARCH_TIMEOUT_SECS : Nat := 30

/-- `const MAX_COUNT: usize = 100`. -/
def MAX_COUNT : Nat := 100

/-- `const CONTEXT_LINES: usize = 2`. -/
def CONTEXT_LINES : Nat := 2

/-- The `SearchDocsError` enum. -/
inductive SearchDocsError where
  | RgaNotInstalled
  | EmptyQuery
  | Timeout (secs : Nat)
  | Io (e : IoError)
  | SearchFailed (code : Int) (stderr : Str)
deriving DecidableEq

/-- `SearchDocsArgs`: the query and the optional path. -/
structure SearchDocsArgs where
  query : Str
  path : Option Str
deriving DecidableEq

/-- A process launch request: program, argument vector, working
directory. -/
structure LaunchSpec where
  prog : Str
  argv : List Str
  cwd : Str
deriving DecidableEq

/-- What the spawned process did, as observed by the caller: normal
completion with an optional exit code plus captured output, a spawn
error, or expiry of the deadline. -/
inductive SpawnResult where
  | completed (code : Option Int) (stdout stderr : Str)
  | spawnErr (e : IoError)
  | timedOut
deriving DecidableEq

/-- The process launch `SearchDocs::call` performs, if any: `none` when
the empty-query check short-circuits before any spawn, otherwise the
full `rga` invocation with the caller's query and path passed verbatim
and the working directory set to the base directory. -/
def searchDocsLaunch (base_dir : Str) (a : SearchDocsArgs) :
    Option LaunchSpec :=
  if trim a.query = [] then none
  else
    let path := a.path.getD (str ".")
    some
      ⟨str "rga",
       [str "-i", str "--max-count", (Nat.repr MAX_COUNT).data,
        str "--context", (Nat.repr CONTEXT_LINES).data,
        str "--color", str "never", a.query, path],
       base_dir⟩

/-- `SearchDocs::call`, with the spawned process's behaviour abstracted
as a `SpawnResult`. -/
def searchDocsCall (base_dir : Str) (a : SearchDocsArgs)
    (outcome : SpawnResult) : Except SearchDocsError Str :=
  if trim a.query = [] then .error .EmptyQuery
  else
    match outcome with
    | .completed code out err =>
      match code with
      | some c =>
        if c = 0 then .ok out
        else if c = 1 then .ok (str "No matches found")
        else if c = 127 then .error .RgaNotInstalled
        else .error (.SearchFailed c err)
      | none => .error (.SearchFailed (-1) err)
    | .spawnErr e =>
      if e.kind = .notFound then .error .RgaNotInstalled
      else .error (.Io e)
    | .timedOut => .error (.Timeout SEARCH_TIMEOUT_SECS)

/-! ### Helper lemmas -/

/-- A non-empty pattern is never a substring of the empty string. -/
theorem containsSub_nil {p : Str} (hp : p ≠ []) : containsSub [] p = false := by
  cases p with
  | nil => exact absurd rfl hp
  | cons a as => simp [containsSub, List.isPrefixOf]

/-- The first character of a trimmed string is not whitespace. -/
theorem trim_head_not_ws {s : Str} {a : Char} {as : Str}
    (h : trim s = a :: as) : wsChar a = false := by
  have hpre := List.rdropWhile_prefix wsChar (s.dropWhile wsChar)
  rw [show List.rdropWhile wsChar (s.dropWhile wsChar) = trim s from rfl, h]
    at hpre
  obtain ⟨t, ht⟩ := hpre
  have hd : s.dropWhile wsChar = a :: (as ++ t) := by
    rw [← ht]; simp
  have hne : s.dropWhile wsChar ≠ [] := by rw [hd]; simp
  have := List.head_dropWhile_not wsChar s hne
  rwa [show (s.dropWhile wsChar).head hne = a by simp [hd]] at this

/-- The whitespace splitter never returns an empty list while a word is
being accumulated. -/
theorem splitWsAux_ne_nil {s : Str} : ∀ {acc : Str}, acc ≠ [] →
    splitWsAux s acc ≠ [] := by
  induction s with
  | nil => intro acc h; simp [splitWsAux, h]
  | cons c cs ih =>
    intro acc h
    by_cases hc : wsChar c
    · simp [splitWsAux, hc, h]
    · simpa [splitWsAux, hc] using ih (by simp)

/-- A string whose head is not whitespace has a first word. -/
theorem firstWord_cons {a : Char} {as : Str} (h : wsChar a = false) :
    ∃ w, firstWord (a :: as) = some w := by
  have : firstWord (a :: as) = (splitWsAux as [a]).head? := by
    simp [firstWord, splitWhitespace, splitWsAux, h]
  rw [this]
  rcases hh : splitWsAux as [a] with _ | ⟨w, ws⟩
  · exact absurd hh (splitWsAux_ne_nil (by simp))
  · exact ⟨w, rfl⟩

/-- A non-empty trimmed string has a first word. -/
theorem firstWord_trim {s : Str} (h : trim s ≠ []) :
    ∃ w, firstWord (trim s) = some w := by
  rcases hs : trim s with _ | ⟨a, as⟩
  · exact absurd hs h
  · exact firstWord_cons (trim_head_not_ws hs)

/-! ### Claim theorems -/

/-- C3. For every command string that (after trimming) contains any
forbidden pattern as a literal substring — anywhere in the string,
including inside quotes — `validate_command` returns the
`ForbiddenPattern` error (in particular the allow-list stage check is
never consulted: the result is an error regardless of the stages). -/
theorem spec_c3_forbidden (command : Str)
    (h : ∃ p ∈ FORBIDDEN_PATTERNS, containsSub (trim command) p = true) :
    ∃ q ∈ FORBIDDEN_PATTERNS, containsSub (trim command) q = true ∧
      validate_command command =
        .error (.ForbiddenPattern q) := by
  obtain ⟨p, hp, hc⟩ := h
  have hall : ∀ q ∈ FORBIDDEN_PATTERNS, q ≠ [] := by decide
  have hpne : p ≠ [] := hall p hp
  have htrim : trim command ≠ [] := by
    intro h0
    rw [h0, containsSub_nil hpne] at hc
    exact Bool.false_ne_true hc
  have hsome : (FORBIDDEN_PATTERNS.find?
      (fun q => containsSub (trim command) q)).isSome :=
    List.find?_isSome.mpr ⟨p, hp, hc⟩
  rcases hfind : FORBIDDEN_PATTERNS.find?
      (fun q => containsSub (trim command) q) with _ | q
  · rw [hfind] at hsome; simp at hsome
  · refine ⟨q, List.mem_of_find?_eq_some hfind, List.find?_some hfind, ?_⟩
    simp [validate_command, htrim, hfind]

/-- C3 witness: `ls; rm -rf /` contains the forbidden pattern `;` and is
rejected with the forbidden-pattern error. -/
theorem spec_c3_forbidden_witness :
    (∃ p ∈ FORBIDDEN_PATTERNS,
      containsSub (trim (str "ls; rm -rf /")) p = true) ∧
    ∃ q ∈ FORBIDDEN_PATTERNS,
      containsSub (trim (str "ls; rm -rf /")) q = true ∧
      validate_command (str "ls; rm -rf /") =
        .error (.ForbiddenPattern q) :=
  ⟨by decide, spec_c3_forbidden _ (by decide)⟩

/-- C6. `resolve_path` rejects every input containing the substring `..`
with `PathTraversal` before performing any filesystem operation (the
result does not depend on the canonicalization oracle); otherwise it
joins the input onto the base directory, canonicalizes both, returns
`OutsideBaseDir` exactly when the canonical result does not have the
canonical base as a prefix, and surfaces canonicalization failures as
I/O errors, never as `OutsideBaseDir`. -/
theorem spec_c6_resolve_path (base_dir path : Str) :
    (containsSub path (str "..") = true →
      ∀ canon, resolve_path canon base_dir path =
        .error (.PathTraversal path)) ∧
    (containsSub path (str "..") = false →
      ∀ canon : Str → Except IoError CanonPath,
      (∀ e, canon (joinPath base_dir path) = .error e →
        resolve_path canon base_dir path = .error (.Io e)) ∧
      (∀ c e, canon (joinPath base_dir path) = .ok c →
        canon base_dir = .error e →
        resolve_path canon base_dir path = .error (.Io e)) ∧
      (∀ c b, canon (joinPath base_dir path) = .ok c →
        canon base_dir = .ok b →
        (resolve_path canon base_dir path = .ok c ↔
          b.isPrefixOf c = true) ∧
        (resolve_path canon base_dir path = .error .OutsideBaseDir ↔
          b.isPrefixOf c = false))) := by
  constructor
  · intro h canon
    simp [resolve_path, h]
  · intro h canon
    refine ⟨?_, ?_, ?_⟩
    · intro e he
      simp [resolve_path, h, he]
    · intro c e hc he
      simp [resolve_path, h, hc, he]
    · intro c b hc hb
      constructor
      · constructor
        · intro hr
          by_cases hpref : b.isPrefixOf c
          · exact hpref
          · simp [resolve_path, h, hc, hb, hpref] at hr
        · intro hpref
          simp [resolve_path, h, hc, hb, hpref]
      · constructor
        · intro hr
          by_cases hpref : b.isPrefixOf c
          · simp [resolve_path, h, hc, hb, hpref] at hr
          · simp only [Bool.not_eq_true] at hpref
            exact hpref
        · intro hpref
          simp [resolve_path, h, hc, hb, hpref]

/-- C6 witness: `../x` is rejected as traversal under any oracle; under a
concrete oracle, `ok` is confined and a failing canonicalization is an
I/O error. -/
theorem spec_c6_resolve_path_witness :
    resolve_path (fun _ => .ok [str "base"]) (str "/base") (str "../x") =
      .error (.PathTraversal (str "../x")) ∧
    resolve_path
      (fun s => if s = str "/base/ok" then .ok [str "base", str "ok"]
        else if s = str "/base" then .ok [str "base"]
        else .error ⟨.notFound, s⟩)
      (str "/base") (str "ok") = .ok [str "base", str "ok"] ∧
    resolve_path
      (fun s => if s = str "/base" then .ok [str "base"]
        else .error ⟨.notFound, s⟩)
      (str "/base") (str "gone") =
      .error (.Io ⟨.notFound, str "/base/gone"⟩) := by
  refine ⟨?_, ?_, ?_⟩
  · exact (spec_c6_resolve_path (str "/base") (str "../x")).1 (by decide) _
  · exact (((spec_c6_resolve_path (str "/base") (str "ok")).2 (by decide)
      _).2.2 [str "base", str "ok"] [str "base"] (by decide)
      (by decide)).1.mpr (by decide)
  · exact ((spec_c6_resolve_path (str "/base") (str "gone")).2 (by decide)
      _).1 ⟨.notFound, str "/base/gone"⟩ (by decide)

/-- C9. `SearchDocs::call` maps exit statuses as specified: 0 returns
stdout, 1 returns a successful "No matches found", 127 and a not-found
launch failure return `RgaNotInstalled`, and any other non-zero exit
code returns `SearchFailed` with that code and the captured stderr. -/
theorem spec_c9_exit_mapping (base_dir : Str) (a : SearchDocsArgs)
    (out err : Str) (h : trim a.query ≠ []) :
    searchDocsCall base_dir a (.completed (some 0) out err) = .ok out ∧
    searchDocsCall base_dir a (.completed (some 1) out err) =
      .ok (str "No matches found") ∧
    searchDocsCall base_dir a (.completed (some 127) out err) =
      .error .RgaNotInstalled ∧
    (∀ m, searchDocsCall base_dir a (.spawnErr ⟨.notFound, m⟩) =
      .error .RgaNotInstalled) ∧
    (∀ c : Int, c ≠ 0 → c ≠ 1 → c ≠ 127 →
      searchDocsCall base_dir a (.completed (some c) out err) =
        .error (.SearchFailed c err)) := by
  refine ⟨?_, ?_, ?_, ?_, ?_⟩
  · simp [searchDocsCall, h]
  · simp [searchDocsCall, h]
  · simp [searchDocsCall, h]
  · intro m; simp [searchDocsCall, h]
  · intro c h0 h1 h127
    simp [searchDocsCall, h, h0, h1, h127]

/-- C9 witness: concrete instances of each branch of the mapping. -/
theorem spec_c9_exit_mapping_witness :
    searchDocsCall (str "/b") ⟨str "q", none⟩
      (.completed (some 0) (str "hit") (str "e")) = .ok (str "hit") ∧
    searchDocsCall (str "/b") ⟨str "q", none⟩
      (.completed (some 1) (str "") (str "e")) =
      .ok (str "No matches found") ∧
    searchDocsCall (str "/b") ⟨str "q", none⟩
      (.completed (some 127) (str "") (str "e")) =
      .error .RgaNotInstalled ∧
    searchDocsCall (str "/b") ⟨str "q", none⟩
      (.completed (some 2) (str "") (str "bad regex")) =
      .error (.SearchFailed 2 (str "bad regex")) := by
  have h := spec_c9_exit_mapping (str "/b") ⟨str "q", none⟩ (str "hit")
    (str "e") (by decide)
  have h2 := spec_c9_exit_mapping (str "/b") ⟨str "q", none⟩ (str "")
    (str "bad regex") (by decide)
  have h3 := spec_c9_exit_mapping (str "/b") ⟨str "q", none⟩ (str "")
    (str "e") (by decide)
  exact ⟨h.1, h3.2.1, h3.2.2.1,
    h2.2.2.2.2 2 (by decide) (by decide) (by decide)⟩

/-- C10. An empty or whitespace-only query is rejected with `EmptyQuery`
before any process is launched; any other query never produces
`EmptyQuery`. -/
theorem spec_c10_empty_query (base_dir : Str) (a : SearchDocsArgs)
    (outcome : SpawnResult) :
    (trim a.query = [] →
      searchDocsCall base_dir a outcome = .error .EmptyQuery ∧
      searchDocsLaunch base_dir a = none) ∧
    (trim a.query ≠ [] →
      searchDocsCall base_dir a outcome ≠ .error .EmptyQuery) := by
  constructor
  · intro h
    exact ⟨by simp [searchDocsCall, h], by simp [searchDocsLaunch, h]⟩
  · intro h
    cases outcome with
    | completed code out err =>
      cases code with
      | some c =>
        by_cases h0 : c = 0
        · simp [searchDocsCall, h, h0]
        · by_cases h1 : c = 1
          · simp [searchDocsCall, h, h0, h1]
          · by_cases h127 : c = 127
            · simp [searchDocsCall, h, h0, h1, h127]
            · simp [searchDocsCall, h, h0, h1, h127]
      | none => simp [searchDocsCall, h]
    | spawnErr e =>
      by_cases hk : e.kind = .notFound
      · simp [searchDocsCall, h, hk]
      · simp [searchDocsCall, h, hk]
    | timedOut => simp [searchDocsCall, h]

/-- C10 witness: a whitespace-only query yields `EmptyQuery` with no
launch; a non-empty query does not yield `EmptyQuery`. -/
theorem spec_c10_empty_query_witness :
    (searchDocsCall (str "/b") ⟨str "  ", none⟩ .timedOut =
        .error .EmptyQuery ∧
      searchDocsLaunch (str "/b") ⟨str "  ", none⟩ = none) ∧
    searchDocsCall (str "/b") ⟨str "hello", none⟩ .timedOut ≠
      .error .EmptyQuery :=
  ⟨(spec_c10_empty_query (str "/b") ⟨str "  ", none⟩ .timedOut).1
      (by decide),
    (spec_c10_empty_query (str "/b") ⟨str "hello", none⟩ .timedOut).2
      (by decide)⟩

/-- C1 counterexample. The claim says a caller-supplied absolute path (or
one escaping the base directory) is rejected rather than searched.  In
fact `SearchDocs::call` performs no path check at all: with base
directory `/base` and path `/etc/passwd`, the external search is
launched with `/etc/passwd` in its argument vector and its output is
returned as a success. -/
theorem spec_c1_counterexample :
    searchDocsLaunch (str "/base") ⟨str "secret", some (str "/etc/passwd")⟩ =
      some ⟨str "rga",
        [str "-i", str "--max-count", str "100", str "--context", str "2",
         str "--color", str "never", str "secret", str "/etc/passwd"],
        str "/base"⟩ ∧
    searchDocsCall (str "/base") ⟨str "secret", some (str "/etc/passwd")⟩
      (.completed (some 0) (str "root:x:0:0:root") []) =
      .ok (str "root:x:0:0:root") := by
  decide

/-- C1 amended: `SearchDocs::call` applies no confinement to the path
argument.  For every non-empty query, the launch proceeds with the
caller's path (defaulting to `.`) passed verbatim to the external
search; only the working directory is set to the base directory. -/
theorem spec_c1_amended (base_dir : Str) (a : SearchDocsArgs)
    (h : trim a.query ≠ []) :
    searchDocsLaunch base_dir a =
      some ⟨str "rga",
        [str "-i", str "--max-count", (Nat.repr MAX_COUNT).data,
         str "--context", (Nat.repr CONTEXT_LINES).data,
         str "--color", str "never", a.query, a.path.getD (str ".")],
        base_dir⟩ := by
  simp [searchDocsLaunch, h]

/-- C1 amended witness: a path that escapes the base directory via the
filesystem root is launched unmodified. -/
theorem spec_c1_amended_witness :
    searchDocsLaunch (str "/home/user") ⟨str "x", some (str "/etc")⟩ =
      some ⟨str "rga",
        [str "-i", str "--max-count", (Nat.repr MAX_COUNT).data,
         str "--context", (Nat.repr CONTEXT_LINES).data,
         str "--color", str "never", str "x", str "/etc"],
        str "/home/user"⟩ :=
  spec_c1_amended (str "/home/user") ⟨str "x", some (str "/etc")⟩
    (by decide)

/-- C2 counterexample. The claim says the shell is used only for commands
with an unquoted pipe, and that a command whose only pipes are quoted is
executed directly.  The command `grep "a|b" f.txt` is accepted, its
quote-aware split has a single stage (so its only pipe is quoted), yet
`BashCommand::call` hands it to the shell because the dispatch tests
`command.contains('|')` on the raw string. -/
theorem spec_c2_counterexample :
    validate_command (str "grep \"a|b\" f.txt") = .ok () ∧
    split_respecting_quotes (trim (str "grep \"a|b\" f.txt")) '|' =
      [str "grep \"a|b\" f.txt"] ∧
    bashExecSpec (str "grep \"a|b\" f.txt") =
      .ok (.shell (str "grep \"a|b\" f.txt")) := by
  decide

/-- C2 amended: for every command accepted by validation, the shell is
used exactly when the raw command contains any pipe character (quoted or
not); a command containing no pipe character at all is executed directly
as its first whitespace token plus the remaining tokens. -/
theorem spec_c2_amended (command : Str) (spec : ExecSpec)
    (h : bashExecSpec command = .ok spec) :
    (command.contains '|' = true → spec = .shell command) ∧
    (command.contains '|' = false →
      ∃ c rest, splitWhitespace command = c :: rest ∧
        spec = .direct c rest) := by
  unfold bashExecSpec at h
  cases hv : validate_command command with
  | error e =>
    simp only [hv] at h
    exact Except.noConfusion h
  | ok u =>
    simp only [hv] at h
    by_cases hp : command.contains '|' = true
    · rw [if_pos hp] at h
      refine ⟨fun _ => ?_, fun hc => absurd hp (by rw [hc]; simp)⟩
      exact (Except.ok.inj h).symm
    · rw [if_neg hp] at h
      refine ⟨fun hc => absurd hc hp, fun _ => ?_⟩
      cases hw : splitWhitespace command with
      | nil => rw [hw] at h; exact absurd h (by simp)
      | cons c rest =>
        rw [hw] at h
        exact ⟨c, rest, rfl, (Except.ok.inj h).symm⟩

/-- C2 amended witness: a pipe-free command is executed directly. -/
theorem spec_c2_amended_witness :
    bashExecSpec (str "ls -la") = .ok (.direct (str "ls") [str "-la"]) ∧
    ((str "ls -la").contains '|' = false →
      ∃ c rest, splitWhitespace (str "ls -la") = c :: rest ∧
        ExecSpec.direct (str "ls") [str "-la"] = .direct c rest) :=
  ⟨by decide,
    (spec_c2_amended (str "ls -la") (.direct (str "ls") [str "-la"])
      (by decide)).2⟩

/-- C7 counterexample. The claim says an out-of-range start saturates to
the beginning.  On a 10-line file, `start_line = 12` (with `end_line`
omitted, so the window would be the whole file under saturation) yields
an empty selection instead of the lines from the beginning. -/
theorem spec_c7_counterexample :
    (rustLines (str "a\nb\nc\nd\ne\nf\ng\nh\ni\nj")).length = 10 ∧
    readFileSelect (str "a\nb\nc\nd\ne\nf\ng\nh\ni\nj") (some 12) none =
      [] ∧
    readFileSelect (str "a\nb\nc\nd\ne\nf\ng\nh\ni\nj") (some 12) none ≠
      rustLines (str "a\nb\nc\nd\ne\nf\ng\nh\ni\nj") := by
  decide

/-- A `drop`/`take` window of a list, characterized element-wise. -/
theorem select_window (L : List Str) (s e : Nat) (he : e ≤ L.length)
    (j : Nat) :
    ((L.drop s).take (e - s)).length = e - s ∧
    ((L.drop s).take (e - s))[j]? =
      (if s + j < e then L[s + j]? else none) := by
  constructor
  · rw [List.length_take, List.length_drop]
    omega
  · rw [List.getElem?_take, List.getElem?_drop]
    rcases Nat.lt_or_ge j (e - s) with hj | hj
    · rw [if_pos hj, if_pos (by omega)]
    · rw [if_neg (by omega), if_neg (by omega)]

/-- C7 amended: `ReadFile::call` selects exactly the 1-indexed inclusive
window: with `L` the lines of the file, `n` their number,
`s = (start_line or 1) - 1` (so an omitted `start_line` or
`start_line = 0` behaves as line 1) and
`e = min (end_line or n) n` (an omitted or out-of-range `end_line`
saturates to the last line), the selection has length `e - s` and its
`j`-th element is line `s + j`; in particular a `start_line` beyond the
last line yields an empty selection.  `start_line = 3, end_line = 5` on
a 10-line file yields exactly lines 3–5. -/
theorem spec_c7_amended :
    (∀ (content : Str) (sl el : Option Nat) (j : Nat),
      (readFileSelect content sl el).length =
        min (el.getD (rustLines content).length)
          (rustLines content).length - (sl.getD 1 - 1) ∧
      (readFileSelect content sl el)[j]? =
        (if (sl.getD 1 - 1) + j <
            min (el.getD (rustLines content).length)
              (rustLines content).length
         then (rustLines content)[(sl.getD 1 - 1) + j]?
         else none)) ∧
    readFileSelect (str "a\nb\nc\nd\ne\nf\ng\nh\ni\nj") (some 3) (some 5) =
      [str "c", str "d", str "e"] := by
  constructor
  · intro content sl el j
    have hst : ((sl.map (fun s => s - 1)).getD 0) = sl.getD 1 - 1 := by
      cases sl <;> simp
    have hsel : readFileSelect content sl el =
        ((rustLines content).drop (sl.getD 1 - 1)).take
          (min (el.getD (rustLines content).length)
            (rustLines content).length - (sl.getD 1 - 1)) := by
      simp only [readFileSelect]
      rw [hst]
    rw [hsel]
    exact select_window (rustLines content) (sl.getD 1 - 1)
      (min (el.getD (rustLines content).length) (rustLines content).length)
      (min_le_right _ _) j
  · decide

/-- The stage loop accepts exactly when every non-whitespace stage's
first token is on the allow-list. -/
theorem checkStages_ok_iff (L : List Str) :
    checkStages L = .ok () ↔
      ∀ stage ∈ L, trim stage ≠ [] →
        ((firstWord (trim stage)).any
          fun w => ALLOWED_COMMANDS.contains w) = true := by
  induction L with
  | nil => simp [checkStages]
  | cons c rest ih =>
    simp only [checkStages]
    rw [List.forall_mem_cons]
    by_cases hc : trim c = []
    · rw [if_pos hc]
      simp [hc, ih]
    · rw [if_neg hc]
      rcases hw : firstWord (trim c) with _ | w
      · simp [hc, hw]
      · by_cases ha : w ∈ ALLOWED_COMMANDS
        · simp [hc, hw, ha, ih]
        · simp [hc, hw, ha]

/-- When every non-whitespace stage has a first word, the stage loop
either accepts or rejects with `CommandNotAllowed`. -/
theorem checkStages_err (L : List Str)
    (h : ∀ stage ∈ L, trim stage ≠ [] →
      ∃ w, firstWord (trim stage) = some w) :
    checkStages L = .ok () ∨
    ∃ w, checkStages L = .error (.CommandNotAllowed w allowListJoined) := by
  induction L with
  | nil => left; rfl
  | cons c rest ih =>
    have hrest := ih (fun st hs => h st (List.mem_cons_of_mem _ hs))
    simp only [checkStages]
    by_cases hc : trim c = []
    · rw [if_pos hc]; exact hrest
    · rw [if_neg hc]
      obtain ⟨w, hw⟩ := h c (List.mem_cons_self _ _) hc
      by_cases ha : w ∈ ALLOWED_COMMANDS
      · rcases hrest with hok | ⟨w2, hw2⟩
        · left; simp [hw, ha, hok]
        · right; exact ⟨w2, by simp [hw, ha, hw2]⟩
      · right; exact ⟨w, by simp [hw, ha]⟩

/-- C4. For every non-empty command containing no forbidden pattern,
`validate_command` accepts iff every pipe-delimited stage (split
quote-aware) that is not whitespace-only has a first token that is an
exact member of the allow-list; a failing stage rejects the whole
pipeline with `CommandNotAllowed` (whitespace-only stages are skipped). -/
theorem spec_c4_allowlist (command : Str)
    (h1 : trim command ≠ [])
    (h2 : ∀ p ∈ FORBIDDEN_PATTERNS,
      containsSub (trim command) p = false) :
    (validate_command command = .ok () ↔
      ∀ stage ∈ split_respecting_quotes (trim command) '|',
        trim stage ≠ [] →
        ((firstWord (trim stage)).any
          fun w => ALLOWED_COMMANDS.contains w) = true) ∧
    (validate_command command ≠ .ok () →
      ∃ w, validate_command command =
        .error (.CommandNotAllowed w allowListJoined)) := by
  have hfind : FORBIDDEN_PATTERNS.find?
      (fun p => containsSub (trim command) p) = none :=
    List.find?_eq_none.mpr (fun p hp => by simp [h2 p hp])
  have hval : validate_command command =
      checkStages (split_respecting_quotes (trim command) '|') := by
    simp only [validate_command]
    rw [if_neg h1, hfind]
  constructor
  · rw [hval]
    exact checkStages_ok_iff _
  · intro hne
    rw [hval] at hne ⊢
    rcases checkStages_err _ (fun st _ hn => firstWord_trim hn) with
      hok | ⟨w, hw⟩
    · exact absurd hok hne
    · exact ⟨w, hw⟩

/-- C4 witness: a two-stage pipeline of allow-listed commands is
accepted. -/
theorem spec_c4_allowlist_witness :
    trim (str "cat file.txt | head -n 10") ≠ [] ∧
    validate_command (str "cat file.txt | head -n 10") = .ok () :=
  ⟨by decide,
    (spec_c4_allowlist (str "cat file.txt | head -n 10") (by decide)
      (by decide)).1.mpr (by decide)⟩

/-- Invariant of the truncation loop: the accumulated result never
exceeds the byte ceiling, and when the loop does not break early it
joins every remaining line and respects the line ceiling. -/
theorem buildLoop_inv (rest : List Str) :
    ∀ (k bc : Nat) (res : Str), bc = res.length →
      res.length ≤ MAX_BYTES →
      ((buildLoop rest k bc res).1.length ≤ MAX_BYTES) ∧
      ((buildLoop rest k bc res).2 = false →
        (buildLoop rest k bc res).1 =
          rest.foldl (fun r l => if r = [] then l else r ++ '\n' :: l)
            res ∧
        (rest ≠ [] → k + rest.length ≤ MAX_LINES)) := by
  induction rest with
  | nil =>
    intro k bc res hbc hle
    exact ⟨hle, fun _ => ⟨rfl, fun hne => absurd rfl hne⟩⟩
  | cons line rest ih =>
    intro k bc res hbc hle
    simp only [buildLoop]
    by_cases hguard : k ≥ MAX_LINES ∨ bc + line.length + 1 > MAX_BYTES
    · rw [if_pos hguard]
      exact ⟨hle, fun hf => absurd hf (by simp)⟩
    · rw [if_neg hguard]
      push_neg at hguard
      obtain ⟨hk, hb⟩ := hguard
      by_cases hres : res = []
      · have hbc0 : bc = 0 := by rw [hbc, hres]; rfl
        rw [if_pos hres, if_pos hres, hres, List.nil_append]
        obtain ⟨ih1, ih2⟩ := ih (k + 1) (bc + line.length) line
          (by omega) (by omega)
        refine ⟨ih1, fun hf => ?_⟩
        obtain ⟨ihe, ihn⟩ := ih2 hf
        refine ⟨?_, fun _ => ?_⟩
        · rw [ihe, List.foldl_cons]
          simp
        · rcases Decidable.em (rest = []) with hrn | hrn
          · subst hrn; simpa using hk
          · have := ihn hrn
            simp only [List.length_cons]
            omega
      · rw [if_neg hres, if_neg hres]
        obtain ⟨ih1, ih2⟩ := ih (k + 1) (bc + 1 + line.length)
          (res ++ ['\n'] ++ line) (by simp [hbc]; omega) (by simp; omega)
        refine ⟨ih1, fun hf => ?_⟩
        obtain ⟨ihe, ihn⟩ := ih2 hf
        refine ⟨?_, fun _ => ?_⟩
        · rw [ihe, List.foldl_cons, if_neg hres]
          simp
        · rcases Decidable.em (rest = []) with hrn | hrn
          · subst hrn; simpa using hk
          · have := ihn hrn
            simp only [List.length_cons]
            omega

/-- The loop's join contains every character of every line, so its
length dominates the sum of the line lengths. -/
theorem joinFold_length (ls : List Str) :
    ∀ init : Str,
      init.length + (ls.map List.length).sum ≤
        (ls.foldl (fun r l => if r = [] then l else r ++ '\n' :: l)
          init).length := by
  induction ls with
  | nil => intro init; simp
  | cons l ls ih =>
    intro init
    simp only [List.foldl_cons, List.map_cons, List.sum_cons]
    have h1 := ih (if init = [] then l else init ++ '\n' :: l)
    have h2 : init.length + l.length ≤
        (if init = [] then l else init ++ '\n' :: l).length := by
      by_cases h : init = []
      · simp [h]
      · simp [h]
    omega

/-- C8. Whenever the selected line range exceeds 1000 lines or its text
exceeds the byte ceiling, the truncation flag is set; a truncated result
always carries the explicit truncation marker; a result without the flag
is exactly the join of every selected line (nothing is silently cut);
and the pre-marker text never exceeds the byte ceiling. -/
theorem spec_c8_truncation (content : Str) (sl el : Option Nat) :
    (((readFileSelect content sl el).map List.length).sum > MAX_BYTES ∨
        (readFileSelect content sl el).length > MAX_LINES →
      (buildLoop (readFileSelect content sl el) 0 0 []).2 = true) ∧
    ((buildLoop (readFileSelect content sl el) 0 0 []).2 = true →
      readFileCallBody content sl el =
        (buildLoop (readFileSelect content sl el) 0 0 []).1 ++
          TRUNC_MARKER) ∧
    ((buildLoop (readFileSelect content sl el) 0 0 []).2 = false →
      readFileCallBody content sl el =
        codeJoin (readFileSelect content sl el)) ∧
    (buildLoop (readFileSelect content sl el) 0 0 []).1.length ≤
      MAX_BYTES := by
  obtain ⟨inv1, inv2⟩ :=
    buildLoop_inv (readFileSelect content sl el) 0 0 [] rfl
      (Nat.zero_le _)
  refine ⟨?_, ?_, ?_, inv1⟩
  · intro hex
    cases hb2 : (buildLoop (readFileSelect content sl el) 0 0 []).2 with
    | true => rfl
    | false =>
      obtain ⟨heq, hlin⟩ := inv2 hb2
      exfalso
      rcases hex with hbytes | hlines
      · have hj := joinFold_length (readFileSelect content sl el) []
        rw [← heq] at hj
        simp only [List.length_nil, Nat.zero_add] at hj
        omega
      · rcases hsel : readFileSelect content sl el with _ | ⟨a, as⟩
        · rw [hsel] at hlines; simp [MAX_LINES] at hlines
        · have := hlin (by rw [hsel]; simp)
          omega
  · intro ht
    simp only [readFileCallBody, readFileRender]
    rw [ht]
    simp
  · intro hf
    obtain ⟨heq, _⟩ := inv2 hf
    simp only [readFileCallBody, readFileRender]
    rw [hf]
    simp only [Bool.false_eq_true, if_false]
    rw [heq]
    rfl

set_option maxRecDepth 100000 in
/-- C8 witness: a file of 1001 empty lines exceeds the line ceiling and
sets the truncation flag. -/
theorem spec_c8_truncation_witness :
    (readFileSelect (List.replicate 1001 '\n') none none).length >
      MAX_LINES ∧
    (buildLoop (readFileSelect (List.replicate 1001 '\n') none none)
      0 0 []).2 = true :=
  ⟨by decide,
    (spec_c8_truncation (List.replicate 1001 '\n') none none).1
      (Or.inr (by decide))⟩

/-- Unfolding of one step of `splitLoop`, with the toggle expressed via
`quoteToggle` (the two expressions are definitionally equal). -/
theorem splitLoop_cons (s : Str) (d c : Char) (rest : Str)
    (i start : Nat) (res : List Str) (inS inD : Bool) (prev : Char) :
    splitLoop s d (c :: rest) i start res inS inD prev =
      (if c = d ∧ (quoteToggle c prev inS inD).1 = false ∧
          (quoteToggle c prev inS inD).2 = false then
        splitLoop s d rest (i + 1) (i + 1)
          (res ++ [(s.take i).drop start])
          (quoteToggle c prev inS inD).1 (quoteToggle c prev inS inD).2 c
      else
        splitLoop s d rest (i + 1) start res
          (quoteToggle c prev inS inD).1 (quoteToggle c prev inS inD).2
          c) := rfl

/-- The char-indexed slicing loop of the source agrees with the spec's
character-accumulating scanner, for every suffix and loop state. -/
theorem splitLoop_eq_foldl (d : Char) (s : Str) :
    ∀ (rest : Str) (i start : Nat) (res : List Str) (inS inD : Bool)
      (prev : Char), rest = s.drop i → start ≤ i → i ≤ s.length →
      splitLoop s d rest i start res inS inD prev =
        (rest.foldl (splitStep d)
          ⟨res, (s.take i).drop start, inS, inD, prev⟩).stages ++
        [(rest.foldl (splitStep d)
          ⟨res, (s.take i).drop start, inS, inD, prev⟩).cur] := by
  intro rest
  induction rest with
  | nil =>
    intro i start res inS inD prev hdrop hsi hil
    have hi : i = s.length := by
      have := List.drop_eq_nil_iff.mp hdrop.symm
      omega
    subst hi
    simp only [splitLoop, List.foldl_nil, List.take_length]
    rcases Nat.lt_or_ge start s.length with h | h
    · rw [if_pos h]
    · have hse : start = s.length := le_antisymm hsi h
      rw [if_neg (by omega), if_pos hse, hse, List.drop_length]
  | cons c rest ih =>
    intro i start res inS inD prev hdrop hsi hil
    have hci : s[i]? = some c := by
      have h0 : (s.drop i)[0]? = some c := by rw [← hdrop]; simp
      rw [List.getElem?_drop] at h0
      simpa using h0
    have hlt : i < s.length := (List.getElem?_eq_some.mp hci).1
    have hrest : rest = s.drop (i + 1) := by
      have h1 : (s.drop i).drop 1 = s.drop (i + 1) := by
        rw [List.drop_drop]
      rw [← hdrop] at h1
      simpa using h1
    have htake : s.take (i + 1) = s.take i ++ [c] := by
      rw [List.take_succ, hci]
      rfl
    rw [splitLoop_cons, List.foldl_cons]
    have hstep : splitStep d ⟨res, (s.take i).drop start, inS, inD, prev⟩
        c =
        (if c = d ∧ (quoteToggle c prev inS inD).1 = false ∧
            (quoteToggle c prev inS inD).2 = false then
          (⟨res ++ [(s.take i).drop start], [],
            (quoteToggle c prev inS inD).1,
            (quoteToggle c prev inS inD).2, c⟩ : SplitState)
        else
          ⟨res, (s.take i).drop start ++ [c],
            (quoteToggle c prev inS inD).1,
            (quoteToggle c prev inS inD).2, c⟩) := rfl
    rw [hstep]
    by_cases hsp : c = d ∧ (quoteToggle c prev inS inD).1 = false ∧
        (quoteToggle c prev inS inD).2 = false
    · rw [if_pos hsp, if_pos hsp]
      have hcur : (s.take (i + 1)).drop (i + 1) = ([] : Str) := by
        apply List.drop_eq_nil_iff.mpr
        rw [List.length_take]
        omega
      rw [ih (i + 1) (i + 1) (res ++ [(s.take i).drop start])
        (quoteToggle c prev inS inD).1 (quoteToggle c prev inS inD).2 c
        hrest (le_refl _) hlt, hcur]
    · rw [if_neg hsp, if_neg hsp]
      have hcur : (s.take (i + 1)).drop start =
          (s.take i).drop start ++ [c] := by
        rw [htake, List.drop_append_of_le_length]
        rw [List.length_take]
        omega
      rw [ih (i + 1) start res
        (quoteToggle c prev inS inD).1 (quoteToggle c prev inS inD).2 c
        hrest (by omega) hlt, hcur]

/-- C5. The source's quote-aware splitter coincides with the spec's
scanner: a `'` toggles single-quote mode unless the previous character
was a backslash or double-quote mode is active, a `"` toggles
double-quote mode unless the previous character was a backslash or
single-quote mode is active, and the string is split exactly at
delimiter positions where neither mode is active; consequently a pipe
inside a matched pair of quotes is never a split point (the spec's
`grep -E "A|B" file.txt` is a single stage), and a trailing delimiter
yields one final empty stage rather than being dropped. -/
theorem spec_c5_split_respecting_quotes :
    (∀ (s : Str) (d : Char),
      split_respecting_quotes s d = splitSpec s d) ∧
    (∀ (s : Str) (d : Char), d ≠ '\'' → d ≠ '"' →
      (s.foldl (splitStep d) initSplitState).inS = false →
      (s.foldl (splitStep d) initSplitState).inD = false →
      split_respecting_quotes (s ++ [d]) d =
        split_respecting_quotes s d ++ [[]]) ∧
    split_respecting_quotes (str "grep -E \"A|B\" file.txt") '|' =
      [str "grep -E \"A|B\" file.txt"] := by
  have hmain : ∀ (s : Str) (d : Char),
      split_respecting_quotes s d = splitSpec s d := by
    intro s d
    have h := splitLoop_eq_foldl d s s 0 0 [] false false (Char.ofNat 0)
      (by simp) (le_refl 0) (Nat.zero_le _)
    simpa [split_respecting_quotes, splitSpec, initSplitState] using h
  refine ⟨hmain, ?_, by decide⟩
  intro s d hd1 hd2 hS hD
  rw [hmain, hmain]
  simp only [splitSpec, List.foldl_append, List.foldl_cons,
    List.foldl_nil]
  have hq : quoteToggle d
      (s.foldl (splitStep d) initSplitState).prev false false =
      (false, false) := by
    simp [quoteToggle, hd1, hd2]
  simp [splitStep, hS, hD, hq]

/-- C5 witness: after an unquoted prefix, appending a trailing delimiter
adds one final empty stage. -/
theorem spec_c5_split_respecting_quotes_witness :
    ((str "ls ").foldl (splitStep '|') initSplitState).inS = false ∧
    ((str "ls ").foldl (splitStep '|') initSplitState).inD = false ∧
    split_respecting_quotes (str "ls " ++ ['|']) '|' =
      split_respecting_quotes (str "ls ") '|' ++ [[]] :=
  ⟨by decide, by decide,
    spec_c5_split_respecting_quotes.2.1 (str "ls ") '|'
      (by decide) (by decide) (by decide) (by decide)⟩

end Horse
